import Mathlib

/-!
Verification of the DreamlandLogger supervisor against its specification.

The C++ sources are shallowly embedded: strings (`std::string`) become lists
of characters, maps (`std::map` / `std::unordered_map`) become association
lists, sets of strings become duplicate-free lists, and
`std::chrono::system_clock::time_point` becomes a natural number of seconds
(`MCTime` adds the `time_point::max()` sentinel used for permanent bans).
Stateful member functions become pure functions from state to state.
Mutexes, threads and file descriptors are not modelled: every operation of
interest runs under one lock in the source, so the sequential semantics is
the one specified.  Timestamp formatting performed by the C library
(`localtime_r` / `mktime` / `put_time` / `get_time`), which is outside this
repository, is passed in as explicit `fmt` / `parse` parameters.
-/

namespace DL

/-- Byte strings of the C++ sources, embedded as lists of characters. -/
abbrev Str := List Char

/-- The whitespace set " \t\r\n" used by the various `trim` helpers. -/
def isWS (c : Char) : Bool :=
  c = ' ' || c = '\t' || c = '\r' || c = '\n'

/-- `trim` from `player_list.cpp` / `part_001`: drop the characters of
" \t\r\n" from both ends (`find_first_not_of` / `find_last_not_of`). -/
def trim (s : Str) : Str :=
  ((s.dropWhile isWS).reverse.dropWhile isWS).reverse

/-- One character of `::tolower` in the C locale: ASCII upper case letters
are shifted into lower case, all other bytes are unchanged. -/
def lowerChar (c : Char) : Char :=
  if 'A' ≤ c ∧ c ≤ 'Z' then Char.ofNat (c.toNat + 32) else c

/-- `to_lower`: `std::transform` with `::tolower` over the whole string. -/
def to_lower (s : Str) : Str :=
  s.map lowerChar

/-- `remove_spaces`: keep every character other than ' ' and '\t'. -/
def remove_spaces (s : Str) : Str :=
  s.filter (fun c => c ≠ ' ' ∧ c ≠ '\t')

/-- Helper for `std::string::find(char, pos)`: scan a suffix, carrying the
absolute index of its first character. -/
def strFindAux (c : Char) : Str → Nat → Option Nat
  | [], _ => none
  | a :: rest, i => if a = c then some i else strFindAux c rest (i + 1)

/-- `std::string::find(c, start)`: index of the first occurrence of `c` at
or after `start`, `none` for `npos`. -/
def strFind (s : Str) (c : Char) (start : Nat) : Option Nat :=
  strFindAux c (s.drop start) start

/-- `std::string::find(pattern)` (from position 0): index of the first
occurrence of `pat` as a contiguous substring, `none` for `npos`. -/
def strStr (s pat : Str) : Option Nat :=
  match s with
  | [] => if pat.isPrefixOf ([] : Str) then some 0 else none
  | a :: rest =>
    if pat.isPrefixOf (a :: rest) then some 0
    else (strStr rest pat).map (· + 1)

/-- `std::string::rfind(pattern, pos)`: index of the last occurrence of
`pat` starting at or before `pos`, `none` for `npos`. -/
def rfindSub (s pat : Str) (pos : Nat) : Option Nat :=
  let candidates := (List.range (pos + 1)).filter
    (fun i => pat.isPrefixOf (s.drop i))
  candidates.getLast?

/-- The `while (...back() == '\n') pop_back()` loops that strip trailing
newlines from an extracted field. -/
def dropTrailingNL (s : Str) : Str :=
  (s.reverse.dropWhile (fun c => c = '\n')).reverse

/-!  ## Buffer (include/io/buffer.h, src/unnamed/part_000)  -/

/-- The lazily compacted line buffer `dl::Buffer`: the backing string, the
read cursor `buffer_ptr_`, and the compaction threshold
`MAX_DELETED_BUFFER_SIZE` (4096 by default, configurable). -/
structure Buffer where
  buffer : Str
  ptr : Nat
  maxDeleted : Nat
deriving Repr, DecidableEq

namespace Buffer

/-- The unread suffix of the buffer: everything at or after the cursor. -/
def residue (b : Buffer) : Str :=
  b.buffer.drop b.ptr

/-- `Buffer::append`: concatenate at the tail, never compacting. -/
def append (b : Buffer) (data : Str) : Buffer :=
  { b with buffer := b.buffer ++ data }

/-- `Buffer::read_line`: if the cursor is in range and a '\n' exists at or
after it, return the inclusive line, advance the cursor past the newline,
and compact (drop the consumed prefix, reset the cursor) when the consumed
prefix has reached `MAX_DELETED_BUFFER_SIZE`; otherwise return the empty
string and leave the buffer unchanged. -/
def read_line (b : Buffer) : Str × Buffer :=
  if b.buffer.length ≤ b.ptr then ([], b)
  else
    match strFind b.buffer '\n' b.ptr with
    | none => ([], b)
    | some nl =>
      let result := (b.buffer.drop b.ptr).take (nl - b.ptr + 1)
      let ptr2 := nl + 1
      if b.maxDeleted ≤ ptr2 then
        (result, { b with buffer := b.buffer.drop ptr2, ptr := 0 })
      else
        (result, { b with ptr := ptr2 })

end Buffer

/-- One client operation on a `Buffer`. -/
inductive BufOp where
  | append (data : Str)
  | readLine
deriving Repr

/-- Run a sequence of operations, returning the final buffer and the
concatenation of all strings returned by the `read_line` calls. -/
def runBuf (b : Buffer) : List BufOp → Buffer × Str
  | [] => (b, [])
  | BufOp.append d :: ops => runBuf (b.append d) ops
  | BufOp.readLine :: ops =>
    let r := b.read_line
    let rest := runBuf r.2 ops
    (rest.1, r.1 ++ rest.2)

/-- The concatenation of all bytes appended by a sequence of operations. -/
def appendedBytes : List BufOp → Str
  | [] => []
  | BufOp.append d :: ops => d ++ appendedBytes ops
  | BufOp.readLine :: ops => appendedBytes ops

/-!  ## Lemmas about `strFind` and `read_line`  -/

lemma strFindAux_spec (c : Char) :
    ∀ (l : Str) (i j : Nat), strFindAux c l i = some j →
      ∃ k, j = i + k ∧ k < l.length ∧ l[k]? = some c := by
  intro l
  induction l with
  | nil => intro i j h; simp [strFindAux] at h
  | cons a rest ih =>
    intro i j h
    by_cases hac : a = c
    · refine ⟨0, ?_, by simp, by simp [hac]⟩
      simp [strFindAux, hac] at h
      omega
    · simp [strFindAux, hac] at h
      obtain ⟨k, hk, hlt, hget⟩ := ih (i + 1) j h
      exact ⟨k + 1, by omega, by simp; omega, by simpa using hget⟩

lemma strFind_spec (s : Str) (c : Char) (start j : Nat)
    (h : strFind s c start = some j) :
    ∃ k, j = start + k ∧ k < (s.drop start).length ∧
      (s.drop start)[k]? = some c :=
  strFindAux_spec c (s.drop start) start j h

/-- One `read_line` call: the cursor stays in range, the returned line
followed by the new unread residue is exactly the old unread residue, and
the returned line is empty or ends with a newline. -/
lemma read_line_spec (b : Buffer) (hb : b.ptr ≤ b.buffer.length) :
    (b.read_line).2.ptr ≤ (b.read_line).2.buffer.length ∧
    (b.read_line).1 ++ (b.read_line).2.residue = b.residue ∧
    ((b.read_line).1 = [] ∨ ∃ u, (b.read_line).1 = u ++ ['\n']) := by
  unfold Buffer.read_line
  by_cases hlen : b.buffer.length ≤ b.ptr
  · simp [hlen, Buffer.residue, hb]
  · simp only [hlen, if_false]
    rcases hfind : strFind b.buffer '\n' b.ptr with _ | nl
    · simp [Buffer.residue, hb]
    · obtain ⟨k, hks, hklt, hkget⟩ := strFind_spec _ _ _ _ hfind
      have hk1 : nl - b.ptr + 1 = k + 1 := by omega
      have hnl1 : nl + 1 = b.ptr + (k + 1) := by omega
      have htail : (b.buffer.drop b.ptr).take (k + 1) ++ b.buffer.drop (nl + 1)
          = b.buffer.drop b.ptr := by
        rw [hnl1, ← List.drop_drop, List.take_append_drop]
      have hend : ∃ u, (b.buffer.drop b.ptr).take (k + 1) = u ++ ['\n'] := by
        refine ⟨(b.buffer.drop b.ptr).take k, ?_⟩
        rw [List.take_succ, hkget]
        rfl
      have hlen2 : nl + 1 ≤ b.buffer.length := by
        have := (List.length_drop b.ptr b.buffer) ▸ hklt
        omega
      by_cases hcap : b.maxDeleted ≤ nl + 1
      · simp only [hfind, hcap, if_true]
        refine ⟨by simp, ?_, Or.inr (hk1 ▸ hend)⟩
        simp only [Buffer.residue, List.drop_zero, hk1]
        exact htail
      · simp only [hfind, hcap, if_false]
        refine ⟨by simpa using hlen2, ?_, Or.inr (hk1 ▸ hend)⟩
        simp only [Buffer.residue, hk1]
        exact htail

lemma runBuf_spec : ∀ (ops : List BufOp) (b : Buffer),
    b.ptr ≤ b.buffer.length →
    (runBuf b ops).2 ++ (runBuf b ops).1.residue
        = b.residue ++ appendedBytes ops ∧
    ((runBuf b ops).2 = [] ∨ ∃ u, (runBuf b ops).2 = u ++ ['\n']) := by
  intro ops
  induction ops with
  | nil => intro b hb; simp [runBuf, appendedBytes]
  | cons op rest ih =>
    intro b hb
    cases op with
    | append d =>
      have hwf : (b.append d).ptr ≤ (b.append d).buffer.length := by
        simp [Buffer.append]; omega
      have hres : (b.append d).residue = b.residue ++ d := by
        simp [Buffer.append, Buffer.residue, List.drop_append_of_le_length hb]
      obtain ⟨h1, h2⟩ := ih (b.append d) hwf
      refine ⟨?_, h2⟩
      simp only [runBuf, appendedBytes]
      rw [h1, hres, List.append_assoc]
    | readLine =>
      obtain ⟨hwf, hres, hend⟩ := read_line_spec b hb
      obtain ⟨h1, h2⟩ := ih (b.read_line).2 hwf
      constructor
      · simp only [runBuf, appendedBytes]
        calc ((b.read_line).1 ++ (runBuf (b.read_line).2 rest).2) ++
              (runBuf (b.read_line).2 rest).1.residue
            = (b.read_line).1 ++ ((runBuf (b.read_line).2 rest).2 ++
              (runBuf (b.read_line).2 rest).1.residue) := by
              rw [List.append_assoc]
          _ = (b.read_line).1 ++ ((b.read_line).2.residue ++ appendedBytes rest) := by
              rw [h1]
          _ = ((b.read_line).1 ++ (b.read_line).2.residue) ++ appendedBytes rest := by
              rw [List.append_assoc]
          _ = b.residue ++ appendedBytes rest := by rw [hres]
      · simp only [runBuf]
        rcases h2 with h2 | ⟨u, hu⟩
        · rw [h2, List.append_nil]
          exact hend
        · exact Or.inr ⟨(b.read_line).1 ++ u, by rw [hu, List.append_assoc]⟩

/-- C1: for every sequence of `append` / `read_line` operations on a fresh
`Buffer`, the concatenation of the lines returned by `read_line` followed by
the unread residue is exactly the concatenation of all appended bytes, and
the returned concatenation is empty or ends with a newline — so the returned
lines are the appended bytes up to and including the last newline contained
in them, and the residue is exactly the appended bytes after that newline,
regardless of when compaction fires. -/
theorem buffer_stream_roundtrip (maxd : Nat) (ops : List BufOp) :
    (runBuf ⟨[], 0, maxd⟩ ops).2 ++ (runBuf ⟨[], 0, maxd⟩ ops).1.residue
        = appendedBytes ops ∧
    ((runBuf ⟨[], 0, maxd⟩ ops).2 = []
      ∨ ∃ u, (runBuf ⟨[], 0, maxd⟩ ops).2 = u ++ ['\n']) := by
  have h := runBuf_spec ops ⟨[], 0, maxd⟩ (by simp)
  simpa [Buffer.residue] using h

/-- C8 counterexample: with compaction threshold 4, reading the line
"abc\n" advances the cursor to exactly the threshold and the buffer
compacts during that very `read_line` call — the backing string has
already changed when the call returns, contrary to the claim that
compaction only happens on the next read. -/
theorem buffer_compaction_not_deferred :
    (Buffer.read_line ⟨['a', 'b', 'c', '\n', 'd'], 0, 4⟩).2.buffer
      ≠ ['a', 'b', 'c', '\n', 'd'] := by
  decide

/-- C8 (amended): when a `read_line` call advances the cursor to
`nl + 1 ≥ MAX_DELETED_BUFFER_SIZE` (in particular when the consumed prefix
equals exactly the threshold), the buffer compacts during that same read:
the consumed prefix `[0..cursor)` is discarded, the cursor is reset to 0,
and the unread suffix is preserved bit-exactly. -/
theorem buffer_compacts_within_read (b : Buffer) (nl : Nat)
    (hfind : strFind b.buffer '\n' b.ptr = some nl)
    (hlen : b.ptr < b.buffer.length)
    (hcap : b.maxDeleted ≤ nl + 1) :
    (b.read_line).2 = ⟨b.buffer.drop (nl + 1), 0, b.maxDeleted⟩ ∧
    (b.read_line).2.residue = b.buffer.drop (nl + 1) := by
  unfold Buffer.read_line
  have hlen2 : ¬ b.buffer.length ≤ b.ptr := by omega
  simp only [hlen2, if_false, hfind, hcap, if_true]
  simp [Buffer.residue]

/-- C8 witness: the amended compaction theorem applied to the concrete
buffer "abc\nd" with threshold 4 and cursor 0. -/
theorem buffer_compacts_within_read_witness :
    (Buffer.read_line ⟨['a', 'b', 'c', '\n', 'd'], 0, 4⟩).2 = ⟨['d'], 0, 4⟩ ∧
    (Buffer.read_line ⟨['a', 'b', 'c', '\n', 'd'], 0, 4⟩).2.residue = ['d'] :=
  buffer_compacts_within_read ⟨['a', 'b', 'c', '\n', 'd'], 0, 4⟩ 3
    (by decide) (by decide) (by decide)

/-!  ## CommandRequestManager (include/command_request.h, src/unnamed/part_001)

`std::unordered_map<std::string, RequestInfo>` becomes an association list
with unique keys; `std::unordered_set<std::string>` becomes a list kept
duplicate-free by the guarded insert in `vote`.  Time points are seconds.
The data-file persistence, image files, threads and mutexes of the manager
are outside the claims under verification and are not modelled. -/

/-- `dl::RequestInfo` (command_request.h). -/
structure RequestInfo where
  id : Str
  applicant : Str
  command : Str
  reason : Str
  image_path : Str
  voted_ips : List Str
  created_at : Nat
  executed_at : Nat
  executed : Bool
deriving Repr, DecidableEq

/-- `RequestInfo::vote_count`: the size of the voted-IP set. -/
def RequestInfo.vote_count (r : RequestInfo) : Nat :=
  r.voted_ips.length

/-- `std::map` / `std::unordered_map` find: the value stored at a key. -/
def mapFind {β : Type} : List (Str × β) → Str → Option β
  | [], _ => none
  | (k, v) :: rest, key => if k = key then some v else mapFind rest key

/-- `std::map` / `std::unordered_map` `operator[]` assignment: replace the
value at a key, or append a fresh entry. -/
def mapSet {β : Type} : List (Str × β) → Str → β → List (Str × β)
  | [], key, v => [(key, v)]
  | (k, w) :: rest, key, v =>
    if k = key then (key, v) :: rest else (k, w) :: mapSet rest key v

/-- The managed request table `requests_`. -/
abbrev RequestMap := List (Str × RequestInfo)

/-- `CommandRequestManager::vote`: status 2 when the request id is absent,
3 when the request is already executed, 1 when the IP has already voted,
else insert the IP and return 0. -/
def vote (m : RequestMap) (request_id ip : Str) : Nat × RequestMap :=
  match mapFind m request_id with
  | none => (2, m)
  | some req =>
    if req.executed = true then (3, m)
    else if ip ∈ req.voted_ips then (1, m)
    else (0, mapSet m request_id { req with voted_ips := ip :: req.voted_ips })

/-- The guard of the executor sweep:
`!req.executed && req.vote_count() >= vote_threshold_`. -/
def eligible (threshold : Nat) (r : RequestInfo) : Bool :=
  !r.executed && decide (threshold ≤ r.vote_count)

/-- Marking a request executed inside the sweep:
`req.executed = true; req.executed_at = now`. -/
def markExecuted (now : Nat) (r : RequestInfo) : RequestInfo :=
  { r with executed := true, executed_at := now }

/-- `CommandRequestManager::check_and_execute`: one pass over the request
table; every eligible request is marked executed and a copy of the marked
record is pushed onto the to-execute list, in iteration order. -/
def check_and_execute (threshold now : Nat) :
    RequestMap → RequestMap × List RequestInfo
  | [] => ([], [])
  | (k, req) :: rest =>
    let r := check_and_execute threshold now rest
    if eligible threshold req then
      ((k, markExecuted now req) :: r.1, markExecuted now req :: r.2)
    else
      ((k, req) :: r.1, r.2)

/-- The arguments of the executor callback invocations performed after the
sweep: `execute_callback_(req.command, req.applicant)` for each staged
record, in order. -/
def executorCalls (l : List RequestInfo) : List (Str × Str) :=
  l.map (fun r => (r.command, r.applicant))

/-- `CommandRequestManager::is_self_pardon`: lower-case and space-strip the
command, drop a leading '/', then test that it starts with "pardon" and
that the remainder contains the lower-cased applicant. -/
def is_self_pardon (applicant command : Str) : Bool :=
  let cmd0 := to_lower (remove_spaces command)
  let applicant_lower := to_lower applicant
  let cmd1 := if cmd0 ≠ [] ∧ cmd0.head? = some '/' then cmd0.drop 1 else cmd0
  if strStr cmd1 ("pardon".toList) = some 0 then
    (strStr (cmd1.drop 6) applicant_lower).isSome
  else false

/-- Modelled from the spec's words ("case-fold and whitespace-strip
command; drop a leading `/`; return true iff it begins with `pardon` and
the remainder contains the applicant's case-folded name"), for comparison
with the implementation. -/
def isSelfPardonSpec (applicant command : Str) : Bool :=
  let c0 := to_lower (remove_spaces command)
  let c := if c0.head? = some '/' then c0.drop 1 else c0
  ("pardon".toList).isPrefixOf c && decide ((to_lower applicant) <:+: (c.drop 6))

/-!  ## Lemmas about map updates and substring search  -/

lemma mapFind_mapSet_self {β : Type} (m : List (Str × β)) (k : Str) (v : β) :
    mapFind (mapSet m k v) k = some v := by
  induction m with
  | nil => simp [mapFind, mapSet]
  | cons p rest ih =>
    obtain ⟨k', w⟩ := p
    by_cases h : k' = k
    · simp [mapFind, mapSet, h]
    · simp [mapFind, mapSet, h, ih]

lemma mapFind_mapSet_ne {β : Type} (m : List (Str × β)) (k k2 : Str) (v : β)
    (h : k2 ≠ k) : mapFind (mapSet m k v) k2 = mapFind m k2 := by
  have h2 : k ≠ k2 := Ne.symm h
  induction m with
  | nil => simp [mapFind, mapSet, h2]
  | cons p rest ih =>
    obtain ⟨k', w⟩ := p
    by_cases hk : k' = k
    · subst hk
      simp [mapFind, mapSet, h2]
    · simp only [mapSet, hk, if_false]
      by_cases hk2 : k' = k2 <;> simp [mapFind, hk2, ih]

lemma strStr_eq_zero_iff (s pat : Str) :
    strStr s pat = some 0 ↔ pat.isPrefixOf s = true := by
  cases s with
  | nil =>
    by_cases h : pat.isPrefixOf ([] : Str) <;> simp [strStr, h]
  | cons a rest =>
    by_cases h : pat.isPrefixOf (a :: rest) <;> simp [strStr, h]

lemma strStr_isSome_iff (pat : Str) :
    ∀ s : Str, (strStr s pat).isSome = true ↔ pat <:+: s := by
  intro s
  induction s with
  | nil =>
    by_cases h : pat.isPrefixOf ([] : Str)
    · cases pat with
      | nil => simp [strStr, List.infix_nil]
      | cons c cs => simp [List.isPrefixOf] at h
    · cases pat with
      | nil => simp [List.isPrefixOf] at h
      | cons c cs => simp [strStr, h, List.infix_nil]
  | cons a rest ih =>
    by_cases h : pat.isPrefixOf (a :: rest)
    · simp only [strStr, h, if_true]
      constructor
      · intro _
        obtain ⟨t, ht⟩ := List.isPrefixOf_iff_prefix.mp h
        exact ⟨[], t, by simpa using ht⟩
      · intro _
        simp
    · have h2 : ¬ pat <+: (a :: rest) :=
        fun hp => h (List.isPrefixOf_iff_prefix.mpr hp)
      rw [List.infix_cons_iff]
      simp [strStr, h, ih, h2]

/-!  ## Theorems for the voting engine  -/

/-- C2: `vote` returns a status in {0, 1, 2, 3} — 2 when the request does
not exist, 3 when it is already executed, 1 when the IP already voted, 0
otherwise; a return of 0 inserts the IP (strictly increasing the voted-IP
set size by one) and changes nothing else, while every non-zero return
leaves the whole request table, hence every record, unchanged. -/
theorem vote_spec (m : RequestMap) (id ip : Str) :
    (vote m id ip).1 ≤ 3 ∧
    (mapFind m id = none → (vote m id ip).1 = 2 ∧ (vote m id ip).2 = m) ∧
    (∀ req, mapFind m id = some req →
      (req.executed = true → (vote m id ip).1 = 3 ∧ (vote m id ip).2 = m) ∧
      (req.executed = false → ip ∈ req.voted_ips →
          (vote m id ip).1 = 1 ∧ (vote m id ip).2 = m) ∧
      (req.executed = false → ip ∉ req.voted_ips →
          (vote m id ip).1 = 0 ∧
          (vote m id ip).2
            = mapSet m id { req with voted_ips := ip :: req.voted_ips } ∧
          mapFind (vote m id ip).2 id
            = some { req with voted_ips := ip :: req.voted_ips } ∧
          ({ req with voted_ips := ip :: req.voted_ips }).vote_count
            = req.vote_count + 1 ∧
          (∀ k, k ≠ id → mapFind (vote m id ip).2 k = mapFind m k))) := by
  rcases hf : mapFind m id with _ | req
  · simp [vote, hf]
  · refine ⟨?_, by simp [vote, hf], ?_⟩
    · by_cases hex : req.executed = true
      · simp [vote, hf, hex]
      · by_cases hip : ip ∈ req.voted_ips <;> simp [vote, hf, hex, hip]
    · intro req' hreq'
      have hreq2 : req' = req := (Option.some.inj hreq').symm
      subst hreq2
      refine ⟨fun hex => by simp [vote, hf, hex], ?_, ?_⟩
      · intro hex hip
        simp [vote, hf, hex, hip]
      · intro hex hip
        simp only [vote, hf, hex, hip, if_false, if_neg]
        refine ⟨rfl, rfl, mapFind_mapSet_self m id _, ?_, ?_⟩
        · simp [RequestInfo.vote_count]
        · intro k hk
          exact mapFind_mapSet_ne m id k _ hk

/-- C2 witness: `vote` on a missing id returns 2 and leaves the table
unchanged; on a fresh IP it returns 0 and the record gains that IP. -/
theorem vote_spec_witness :
    (vote [] ['r'] ['i']).1 = 2 ∧
    (vote [(['r'], ⟨['r'], [], [], [], [], [], 0, 0, false⟩)] ['r'] ['i']).1
        = 0 ∧
    mapFind (vote [(['r'], ⟨['r'], [], [], [], [], [], 0, 0, false⟩)]
        ['r'] ['i']).2 ['r']
      = some ⟨['r'], [], [], [], [], [['i']], 0, 0, false⟩ := by
  refine ⟨((vote_spec [] ['r'] ['i']).2.1 (by rfl)).1, ?_, ?_⟩
  · exact ((((vote_spec [(['r'], ⟨['r'], [], [], [], [], [], 0, 0, false⟩)]
      ['r'] ['i']).2.2 _ (by rfl)).2.2) (by rfl) (by simp)).1
  · exact ((((vote_spec [(['r'], ⟨['r'], [], [], [], [], [], 0, 0, false⟩)]
      ['r'] ['i']).2.2 _ (by rfl)).2.2) (by rfl) (by simp)).2.2.1

/-- C9: the error codes of `vote` are checked in a fixed priority order —
a missing request yields 2 regardless of the IP, and a request that is both
already executed and already voted by the given IP yields 3 (the
already-executed check precedes the duplicate-IP check). -/
theorem vote_priority_order (m : RequestMap) (id ip : Str) :
    (mapFind m id = none → (vote m id ip).1 = 2) ∧
    (∀ req, mapFind m id = some req → req.executed = true →
      ip ∈ req.voted_ips → (vote m id ip).1 = 3) := by
  constructor
  · intro h
    simp [vote, h]
  · intro req hreq hex _
    simp [vote, hreq, hex]

/-- C9 witness: the priority theorem applied to a request that is both
executed and already voted by the IP, and to an absent id. -/
theorem vote_priority_order_witness :
    (vote [(['r'], ⟨['r'], [], [], [], [], [['i']], 0, 0, true⟩)]
        ['r'] ['i']).1 = 3 ∧
    (vote [] ['q'] ['j']).1 = 2 := by
  constructor
  · exact (vote_priority_order
      [(['r'], ⟨['r'], [], [], [], [], [['i']], 0, 0, true⟩)] ['r'] ['i']).2
      _ (by rfl) (by rfl) (by simp)
  · exact (vote_priority_order [] ['q'] ['j']).1 (by rfl)

lemma check_and_execute_eq (threshold now : Nat) (m : RequestMap) :
    (check_and_execute threshold now m).1
        = m.map (fun p =>
            if eligible threshold p.2 then (p.1, markExecuted now p.2) else p) ∧
    (check_and_execute threshold now m).2
        = (m.filter (fun p => eligible threshold p.2)).map
            (fun p => markExecuted now p.2) := by
  induction m with
  | nil => simp [check_and_execute]
  | cons p rest ih =>
    obtain ⟨k, req⟩ := p
    by_cases h : eligible threshold req
    · simp [check_and_execute, h, ih.1, ih.2]
    · simp [check_and_execute, h, ih.1, ih.2]

/-- C3: one executor pass marks exactly the unexecuted requests whose voted
IP count has reached the threshold as executed with `executed_at` set to the
pass time, leaves everything else unchanged, and the callback argument list
contains the command and applicant of exactly those requests, once each, in
iteration order — requests below the threshold or already executed are not
passed to the callback. -/
theorem executor_sweep_spec (threshold now : Nat) (m : RequestMap) :
    (check_and_execute threshold now m).1
        = m.map (fun p =>
            if eligible threshold p.2 then (p.1, markExecuted now p.2) else p) ∧
    (check_and_execute threshold now m).2
        = (m.filter (fun p => eligible threshold p.2)).map
            (fun p => markExecuted now p.2) ∧
    executorCalls (check_and_execute threshold now m).2
        = (m.filter (fun p => eligible threshold p.2)).map
            (fun p => (p.2.command, p.2.applicant)) ∧
    (∀ p ∈ m, eligible threshold p.2 = true →
      (markExecuted now p.2).executed = true ∧
      (markExecuted now p.2).executed_at = now) := by
  obtain ⟨h1, h2⟩ := check_and_execute_eq threshold now m
  refine ⟨h1, h2, ?_, fun p _ _ => ⟨rfl, rfl⟩⟩
  rw [executorCalls, h2, List.map_map]
  rfl

/-- C3 witness: the sweep theorem applied to a two-request table with
threshold 1 — the unexecuted request with one vote is staged and called,
the already-executed one is not. -/
theorem executor_sweep_spec_witness :
    executorCalls (check_and_execute 1 5
        [(['a'], ⟨['a'], ['p'], ['c'], [], [], [['i']], 0, 0, false⟩),
         (['b'], ⟨['b'], ['q'], ['d'], [], [], [['j']], 0, 0, true⟩)]).2
      = [(['c'], ['p'])] := by
  have h := (executor_sweep_spec 1 5
      [(['a'], ⟨['a'], ['p'], ['c'], [], [], [['i']], 0, 0, false⟩),
       (['b'], ⟨['b'], ['q'], ['d'], [], [], [['j']], 0, 0, true⟩)]).2.2.1
  simpa [eligible, RequestInfo.vote_count] using h

lemma selfPardon_core (c1 al : Str) :
    (if strStr c1 ("pardon".toList) = some 0
      then (strStr (c1.drop 6) al).isSome else false)
      = (("pardon".toList).isPrefixOf c1
          && decide (al <:+: (c1.drop 6))) := by
  by_cases hp : strStr c1 ("pardon".toList) = some 0
  · rw [if_pos hp, (strStr_eq_zero_iff _ _).mp hp]
    by_cases hin : al <:+: (c1.drop 6)
    · simp [hin, (strStr_isSome_iff _ _).mpr hin]
    · have hfalse : (strStr (c1.drop 6) al).isSome = false := by
        rw [Bool.eq_false_iff]
        exact fun hh => hin ((strStr_isSome_iff _ _).mp hh)
      simp [hfalse, hin]
  · have hfp : ("pardon".toList).isPrefixOf c1 = false := by
      rw [Bool.eq_false_iff]
      exact fun h => hp ((strStr_eq_zero_iff _ _).mpr h)
    rw [if_neg hp, hfp, Bool.false_and]

/-- C7: `is_self_pardon` agrees everywhere with the spec's description
(case-fold and whitespace-strip the command, drop one leading '/', accept
iff the result begins with "pardon" and the remainder contains the
case-folded applicant as a substring); in particular
`is_self_pardon "Bob" "/pardon bob"` is true and
`is_self_pardon "Bob" "/pardon carol"` is false. -/
theorem is_self_pardon_matches_spec :
    (∀ applicant command : Str,
      is_self_pardon applicant command = isSelfPardonSpec applicant command) ∧
    is_self_pardon ("Bob".toList) ("/pardon bob".toList) = true ∧
    is_self_pardon ("Bob".toList) ("/pardon carol".toList) = false := by
  refine ⟨?_, by decide, by decide⟩
  intro a c
  simp only [is_self_pardon, isSelfPardonSpec]
  by_cases h : (to_lower (remove_spaces c)).head? = some '/'
  · have hne : to_lower (remove_spaces c) ≠ [] := by
      intro hnil
      rw [hnil] at h
      simp at h
    have hcond : to_lower (remove_spaces c) ≠ []
        ∧ (to_lower (remove_spaces c)).head? = some '/' := ⟨hne, h⟩
    rw [if_pos hcond, if_pos h]
    exact selfPardon_core _ _
  · have hcond : ¬ (to_lower (remove_spaces c) ≠ []
        ∧ (to_lower (remove_spaces c)).head? = some '/') :=
      fun hh => h hh.2
    rw [if_neg hcond, if_neg h]
    exact selfPardon_core _ _

/-!  ## PlayerList ban registry (src/src/player_list.cpp)

`std::chrono::system_clock::time_point` becomes `MCTime`: a finite number
of seconds or the `time_point::max()` sentinel used for permanent bans.
`std::chrono::hours(h)` adds `h * 3600` seconds.  The strings written to
the child's stdin through `program_.send_string` are collected in `sent`,
and each `ban` invocation is logged in `ban_calls` (mirroring the
"[PlayerList] 封禁玩家" console line printed by `ban`).  The files written
by `save_files` are modelled separately below. -/

/-- A system-clock time point: a finite reading or `time_point::max()`. -/
inductive MCTime where
  | fin (t : Nat)
  | never
deriving Repr, DecidableEq

/-- The strict order on time points: every finite reading is strictly
below the `never` sentinel. -/
def MCTime.lt : MCTime → MCTime → Prop
  | .fin x, .fin y => x < y
  | .fin _, .never => True
  | .never, _ => False

/-- `dl::BannedPlayerInfo` (player_list.h). -/
structure BannedPlayerInfo where
  name : Str
  reason : Str
  ban_time : MCTime
  unban_time : MCTime
  is_permanent : Bool
deriving Repr, DecidableEq

/-- `dl::ForbiddenCommand`: a substring key and a ban duration in hours
(0 meaning permanent). -/
structure ForbiddenRule where
  command : Str
  ban_hours : Nat
deriving Repr, DecidableEq

/-- The mutable state of `dl::PlayerList`, together with the observable
channel to the child process (`sent`) and the trace of `ban` invocations
(`ban_calls`).  The timestamps of `OnlinePlayerInfo` are not referenced by
any claim and are omitted from the online map. -/
structure PlayerListState where
  all_players : List Str
  online_players : List (Str × Str)
  banned_players : List (Str × BannedPlayerInfo)
  forbidden_commands : List ForbiddenRule
  sent : List Str
  ban_calls : List (Str × Str × Nat)
deriving Repr, DecidableEq

/-- `PlayerList::ban`: build the record (permanent iff `banned_hours == 0`,
with the sentinel as unban time, otherwise ban time plus the hours), upsert
it under the player's name, and push `"ban <name> <reason>\n"` to the
child's stdin. -/
def PlayerList.ban (now : Nat) (st : PlayerListState)
    (player reason : Str) (banned_hours : Nat) : PlayerListState :=
  let info : BannedPlayerInfo :=
    { name := player
      reason := reason
      ban_time := MCTime.fin now
      is_permanent := decide (banned_hours = 0)
      unban_time := if banned_hours = 0 then MCTime.never
                    else MCTime.fin (now + banned_hours * 3600) }
  { st with
    banned_players := mapSet st.banned_players player info
    sent := st.sent
      ++ ["ban ".toList ++ player ++ " ".toList ++ reason ++ ['\n']]
    ban_calls := st.ban_calls ++ [(player, reason, banned_hours)] }

/-- C6: `ban` upserts a record under the player's name — permanent with the
sentinel unban time when `hours = 0` (the sentinel being strictly greater
than every finite clock reading), and otherwise expiring at the ban time
plus the given hours — pushes `"ban <name> <reason>\n"` to the child's
stdin, and touches no other player's record. -/
theorem ban_spec (now : Nat) (st : PlayerListState)
    (player reason : Str) (hours : Nat) :
    mapFind (PlayerList.ban now st player reason hours).banned_players player
      = some
        { name := player
          reason := reason
          ban_time := MCTime.fin now
          is_permanent := decide (hours = 0)
          unban_time := if hours = 0 then MCTime.never
                        else MCTime.fin (now + hours * 3600) } ∧
    (hours = 0 →
      ∃ r, mapFind (PlayerList.ban now st player reason hours).banned_players
          player = some r ∧ r.is_permanent = true ∧ r.unban_time = MCTime.never) ∧
    (∀ t : Nat, MCTime.lt (MCTime.fin t) MCTime.never) ∧
    (0 < hours →
      ∃ r, mapFind (PlayerList.ban now st player reason hours).banned_players
          player = some r ∧ r.is_permanent = false ∧
          r.unban_time = MCTime.fin (now + hours * 3600)) ∧
    (PlayerList.ban now st player reason hours).sent
      = st.sent ++ ["ban ".toList ++ player ++ " ".toList ++ reason ++ ['\n']] ∧
    (∀ k, k ≠ player →
      mapFind (PlayerList.ban now st player reason hours).banned_players k
        = mapFind st.banned_players k) := by
  refine ⟨mapFind_mapSet_self _ _ _, ?_, fun t => trivial, ?_, rfl, ?_⟩
  · intro h0
    refine ⟨_, mapFind_mapSet_self _ _ _, ?_, ?_⟩ <;> simp [h0]
  · intro hpos
    have h0 : ¬ hours = 0 := by omega
    refine ⟨_, mapFind_mapSet_self _ _ _, ?_, ?_⟩ <;> simp [h0]
  · intro k hk
    exact mapFind_mapSet_ne _ _ _ _ hk

/-- C6 witness: banning "p" permanently (hours 0) and for 2 hours on an
empty registry, via the ban theorem at concrete inputs. -/
theorem ban_spec_witness :
    mapFind (PlayerList.ban 50 ⟨[], [], [], [], [], []⟩
        ['p'] ['r'] 0).banned_players ['p']
      = some ⟨['p'], ['r'], MCTime.fin 50, MCTime.never, true⟩ ∧
    MCTime.lt (MCTime.fin 123456789) MCTime.never ∧
    mapFind (PlayerList.ban 50 ⟨[], [], [], [], [], []⟩
        ['p'] ['r'] 2).banned_players ['p']
      = some ⟨['p'], ['r'], MCTime.fin 50, MCTime.fin 7250, false⟩ := by
  refine ⟨?_, (ban_spec 50 ⟨[], [], [], [], [], []⟩ ['p'] ['r'] 0).2.2.1
      123456789, ?_⟩
  · have h := (ban_spec 50 ⟨[], [], [], [], [], []⟩ ['p'] ['r'] 0).1
    simpa using h
  · have h := (ban_spec 50 ⟨[], [], [], [], [], []⟩ ['p'] ['r'] 2).1
    simpa using h

/-!  ## ServerManager (include/server_manager.h, src/unnamed/part_002)

Only `execute_command` is claimed.  `sent` collects the strings written to
the child's stdin by `program_->send_string`; the log cache, ops list and
log-reader thread are not referenced by the claim and are not modelled. -/

/-- The state of `dl::ServerManager` visible to `execute_command`. -/
structure ServerManagerState where
  running : Bool
  sent : List Str
deriving Repr, DecidableEq

/-- `ServerManager::execute_command`: do nothing when the supervisor is not
running; otherwise drop one leading '/' if present and send the result
followed by a newline to the child's stdin. -/
def execute_command (sm : ServerManagerState) (command : Str) :
    ServerManagerState :=
  if sm.running = false then sm
  else
    let cmd := if command ≠ [] ∧ command.head? = some '/'
               then command.drop 1 else command
    { sm with sent := sm.sent ++ [cmd ++ ['\n']] }

/-- C10: when the supervisor is not running, `execute_command` sends
nothing and leaves all state unchanged; when it is running, it appends to
the child's stdin exactly one string — the command with one leading '/'
stripped if present, followed by a single newline. -/
theorem execute_command_spec (sm : ServerManagerState) (command : Str) :
    (sm.running = false → execute_command sm command = sm) ∧
    (sm.running = true →
      (execute_command sm command).running = sm.running ∧
      (execute_command sm command).sent
        = sm.sent ++ [(if command.head? = some '/'
            then command.drop 1 else command) ++ ['\n']]) := by
  constructor
  · intro h
    simp [execute_command, h]
  · intro h
    have hns : ¬ sm.running = false := by simp [h]
    refine ⟨by simp [execute_command, hns], ?_⟩
    by_cases hh : command.head? = some '/'
    · have hne : command ≠ [] := by
        intro hnil
        rw [hnil] at hh
        simp at hh
      simp [execute_command, hns, hh, hne]
    · have hcond : ¬ (command ≠ [] ∧ command.head? = some '/') :=
        fun hc => hh hc.2
      simp [execute_command, hns, hh, hcond]

/-- C10 witness: the theorem applied to a stopped supervisor and to a
running one receiving "/stop". -/
theorem execute_command_spec_witness :
    execute_command ⟨false, []⟩ ['/', 'x'] = ⟨false, []⟩ ∧
    (execute_command ⟨true, []⟩ ['/', 's', 't', 'o', 'p']).sent
      = [['s', 't', 'o', 'p', '\n']] := by
  constructor
  · exact (execute_command_spec ⟨false, []⟩ ['/', 'x']).1 rfl
  · have h := ((execute_command_spec ⟨true, []⟩
      ['/', 's', 't', 'o', 'p']).2 rfl).2
    simpa using h

/-!  ## Ban-file persistence (PlayerList::save_files / load_files)

The banned file is modelled as its list of lines (`std::ofstream` with
"\n" separators on the write side, `std::getline` on the read side).
`fmt` stands for the composite `to_time_t` / `localtime_r` / `put_time`
used by `time_to_string` for non-sentinel times, and `parse` for the
composite `get_time` / `mktime` used by `string_to_time`; both live in the
C library, outside this repository.  Only the banned-players portion of
`save_files` / `load_files` is claimed; the players and forbidden-command
files are independent of it. -/

/-- The sentinel spelling of a permanent ban's unban time. -/
def sentinelStr : Str := "0000-00-00 00:00:00".toList

/-- `time_to_string(tp, permanent)` from player_list.cpp: the sentinel
spelling when `permanent`, otherwise the C-library rendering of `tp`. -/
def time_to_string (fmt : MCTime → Str) (tp : MCTime) (permanent : Bool) :
    Str :=
  if permanent = true then sentinelStr else fmt tp

/-- `string_to_time` from player_list.cpp: the sentinel spelling parses to
`time_point::max()`; everything else goes through the C library. -/
def string_to_time (parse : Str → Nat) (s : Str) : MCTime :=
  if s = sentinelStr then MCTime.never else MCTime.fin (parse s)

/-- One record line of the banned file:
`name|reason|ban_time|unban_time`. -/
def render_banned_line (fmt : MCTime → Str) (r : BannedPlayerInfo) : Str :=
  r.name ++ '|' :: (r.reason ++ '|' ::
    (time_to_string fmt r.ban_time false ++ '|' ::
      time_to_string fmt r.unban_time r.is_permanent))

/-- The banned-file portion of `PlayerList::save_files`: a comment header
followed by one line per record, in map iteration order. -/
def save_banned (fmt : MCTime → Str)
    (banned : List (Str × BannedPlayerInfo)) : List Str :=
  ("# name|reason|ban_time|unban_time".toList)
    :: banned.map (fun p => render_banned_line fmt p.2)

/-- One loop iteration of the banned-file portion of
`PlayerList::load_files`: trim the line, skip blanks and '#' comments,
split at the first three '|' separators (skipping the line if any is
missing), and rebuild the record. -/
def parse_banned_line (parse : Str → Nat) (line0 : Str) :
    Option BannedPlayerInfo :=
  let line := trim line0
  if line = [] then none
  else if line.head? = some '#' then none
  else
    match strFind line '|' 0 with
    | none => none
    | some p1 =>
      match strFind line '|' (p1 + 1) with
      | none => none
      | some p2 =>
        match strFind line '|' (p2 + 1) with
        | none => none
        | some p3 =>
          some
            { name := line.take p1
              reason := (line.drop (p1 + 1)).take (p2 - p1 - 1)
              ban_time := string_to_time parse
                ((line.drop (p2 + 1)).take (p3 - p2 - 1))
              is_permanent := decide (line.drop (p3 + 1) = sentinelStr)
              unban_time := string_to_time parse (line.drop (p3 + 1)) }

/-- The banned-file portion of `PlayerList::load_files`: process each line
in order, assigning `banned_players_[info.name] = info` for every parsed
record. -/
def load_banned (parse : Str → Nat) (lines : List Str) :
    List (Str × BannedPlayerInfo) :=
  lines.foldl (fun acc line =>
    match parse_banned_line parse line with
    | none => acc
    | some info => mapSet acc info.name info) []

/-- A concrete well-behaved instance of the C-library time rendering, used
to evaluate the persistence model on explicit inputs: decimal seconds, the
sentinel spelling for `time_point::max()`. -/
def fmtD : MCTime → Str
  | MCTime.fin t => Nat.toDigits 10 t
  | MCTime.never => sentinelStr

/-- The matching concrete time parser: decimal digits to seconds. -/
def parseD (s : Str) : Nat :=
  s.foldl (fun acc c => acc * 10 + (c.toNat - 48)) 0

/-- C5 counterexample: a registry whose single record carries the reason
"a|b" does not survive a save/load cycle — the '|' inside the reason
shifts every later field of the pipe-delimited line, so the reloaded
record has reason "a" and garbled times.  The claim is false as stated
for arbitrary in-memory registries. -/
theorem banned_roundtrip_cex :
    load_banned parseD (save_banned fmtD
        [(['p'], ⟨['p'], ['a', '|', 'b'], MCTime.fin 5, MCTime.fin 9, false⟩)])
      ≠ [(['p'], ⟨['p'], ['a', '|', 'b'], MCTime.fin 5, MCTime.fin 9, false⟩)] := by
  decide

/-- A string whose first character (if any) survives `trim` and is not the
comment character. -/
def headNameOK (s : Str) : Bool :=
  match s.head? with
  | some c => !isWS c && !(c = '#')
  | none => true

/-- A string whose last character (if any) survives `trim`. -/
def lastNotWS (s : Str) : Bool :=
  match s.getLast? with
  | some c => !isWS c
  | none => true

/-- A field of the banned-file line that the loader can split correctly:
non-empty, free of '|' and '\n', not ending in trimmed whitespace. -/
@[reducible] def fieldOK (s : Str) : Prop :=
  s ≠ [] ∧ '|' ∉ s ∧ '\n' ∉ s ∧ lastNotWS s = true

/-- A banned record (together with the C-library rendering `fmt` and
parser `parse`) that the pipe-delimited ban file can faithfully carry:
name and reason free of '|' and '\n', name not starting with trimmed
whitespace or the comment character, time renderings splittable and parsed
back to the original time points, and the permanence flag consistent with
the sentinel. -/
@[reducible] def recordOK (fmt : MCTime → Str) (parse : Str → Nat)
    (r : BannedPlayerInfo) : Prop :=
  '|' ∉ r.name ∧ '\n' ∉ r.name ∧ headNameOK r.name = true ∧
  '|' ∉ r.reason ∧ '\n' ∉ r.reason ∧
  fieldOK (fmt r.ban_time) ∧
  string_to_time parse (fmt r.ban_time) = r.ban_time ∧
  (r.is_permanent = true → r.unban_time = MCTime.never) ∧
  (r.is_permanent = false → fieldOK (fmt r.unban_time) ∧
    string_to_time parse (fmt r.unban_time) = r.unban_time ∧
    r.unban_time ≠ MCTime.never)

lemma strFindAux_append (c : Char) :
    ∀ (a b : Str) (i : Nat), c ∉ a →
      strFindAux c (a ++ c :: b) i = some (i + a.length) := by
  intro a
  induction a with
  | nil => intro b i _; simp [strFindAux]
  | cons x xs ih =>
    intro b i h
    have hxc : ¬ x = c := by
      rintro rfl
      exact h (List.mem_cons_self _ _)
    have htl := ih b (i + 1) (fun hc => h (List.mem_cons_of_mem _ hc))
    rw [List.cons_append]
    rw [strFindAux, if_neg hxc, htl]
    congr 1
    simp
    omega

lemma drop_append_cons (c : Char) :
    ∀ (a b : Str), (a ++ c :: b).drop (a.length + 1) = b := by
  intro a
  induction a with
  | nil => intro b; simp
  | cons x xs ih => intro b; simp [ih b]

lemma dropWhile_isWS_eq_self (s : Str)
    (h : match s.head? with | some c => isWS c = false | none => True) :
    s.dropWhile isWS = s := by
  cases s with
  | nil => rfl
  | cons x xs =>
    simp only [List.head?_cons] at h
    simp [List.dropWhile_cons, h]

lemma trim_eq_self (s : Str)
    (h1 : match s.head? with | some c => isWS c = false | none => True)
    (h2 : match s.getLast? with | some c => isWS c = false | none => True) :
    trim s = s := by
  unfold trim
  rw [dropWhile_isWS_eq_self s h1]
  have h2r : match s.reverse.head? with
      | some c => isWS c = false | none => True := by
    rw [List.head?_reverse]
    exact h2
  rw [dropWhile_isWS_eq_self s.reverse h2r, List.reverse_reverse]

lemma take_append_exact : ∀ (a b : Str), (a ++ b).take a.length = a := by
  intro a
  induction a with
  | nil => intro b; simp
  | cons x xs ih => intro b; simp [ih b]

lemma parse_banned_line_eq (parse : Str → Nat) (n re f1 f2 : Str)
    (hnp : '|' ∉ n) (hrp : '|' ∉ re) (hf1p : '|' ∉ f1)
    (hnh : match n.head? with
           | some c => isWS c = false ∧ c ≠ '#' | none => True)
    (hf2ne : f2 ≠ [])
    (hf2l : match f2.getLast? with | some c => isWS c = false | none => True) :
    parse_banned_line parse (n ++ '|' :: (re ++ '|' :: (f1 ++ '|' :: f2)))
      = some
        { name := n
          reason := re
          ban_time := string_to_time parse f1
          is_permanent := decide (f2 = sentinelStr)
          unban_time := string_to_time parse f2 } := by
  set line : Str := n ++ '|' :: (re ++ '|' :: (f1 ++ '|' :: f2)) with hline
  obtain ⟨c2, hc2⟩ : ∃ c, f2.getLast? = some c := by
    cases f2 with
    | nil => exact absurd rfl hf2ne
    | cons y ys => exact ⟨(y :: ys).getLast (by simp), List.getLast?_eq_getLast _ _⟩
  have hlast : line.getLast? = some c2 := by
    have hsplit : line = (n ++ '|' :: (re ++ '|' :: (f1 ++ ['|']))) ++ f2 := by
      simp [hline]
    rw [hsplit, List.getLast?_append, hc2]
    rfl
  have hheadm : match line.head? with
      | some c => isWS c = false | none => True := by
    cases hn : n with
    | nil =>
      have : line.head? = some '|' := by rw [hline, hn]; rfl
      rw [this]
      decide
    | cons c cs =>
      have : line.head? = some c := by rw [hline, hn]; rfl
      rw [this]
      rw [hn] at hnh
      simp only [List.head?_cons] at hnh
      exact hnh.1
  have htrim : trim line = line := by
    apply trim_eq_self line hheadm
    rw [hlast]
    rw [hc2] at hf2l
    exact hf2l
  have hne : ¬ (line = []) := by
    rw [hline]
    simp
  have hh2 : ¬ (line.head? = some '#') := by
    cases hn : n with
    | nil =>
      have : line.head? = some '|' := by rw [hline, hn]; rfl
      rw [this]
      decide
    | cons c cs =>
      have hl : line.head? = some c := by rw [hline, hn]; rfl
      rw [hl]
      rw [hn] at hnh
      simp only [List.head?_cons] at hnh
      intro hcc
      exact hnh.2 (Option.some.inj hcc)
  have hfind1 : strFind line '|' 0 = some n.length := by
    rw [strFind, List.drop_zero, hline]
    have := strFindAux_append '|' n (re ++ '|' :: (f1 ++ '|' :: f2)) 0 hnp
    rw [this]
    simp
  have hdrop1 : line.drop (n.length + 1) = re ++ '|' :: (f1 ++ '|' :: f2) := by
    rw [hline]
    exact drop_append_cons '|' n _
  have hfind2 : strFind line '|' (n.length + 1)
      = some (n.length + 1 + re.length) := by
    rw [strFind, hdrop1]
    exact strFindAux_append '|' re (f1 ++ '|' :: f2) (n.length + 1) hrp
  have hdrop2 : line.drop (n.length + 1 + re.length + 1)
      = f1 ++ '|' :: f2 := by
    have h1 : line.drop (n.length + 1 + re.length + 1)
        = (line.drop (n.length + 1)).drop (re.length + 1) := by
      rw [List.drop_drop]
      congr 1
    rw [h1, hdrop1]
    exact drop_append_cons '|' re _
  have hfind3 : strFind line '|' (n.length + 1 + re.length + 1)
      = some (n.length + 1 + re.length + 1 + f1.length) := by
    rw [strFind, hdrop2]
    exact strFindAux_append '|' f1 f2 (n.length + 1 + re.length + 1) hf1p
  have hdrop3 : line.drop (n.length + 1 + re.length + 1 + f1.length + 1)
      = f2 := by
    have h1 : line.drop (n.length + 1 + re.length + 1 + f1.length + 1)
        = (line.drop (n.length + 1 + re.length + 1)).drop (f1.length + 1) := by
      rw [List.drop_drop]
      congr 1
    rw [h1, hdrop2]
    exact drop_append_cons '|' f1 _
  have e1 : n.length + 1 + re.length - n.length - 1 = re.length := by omega
  have e2 : n.length + 1 + re.length + 1 + f1.length
      - (n.length + 1 + re.length) - 1 = f1.length := by omega
  simp only [parse_banned_line, htrim, hne, if_false, hh2,
    hfind1, hfind2, hfind3, e1, e2, hdrop1, hdrop2, hdrop3]
  rw [hline]
  rw [take_append_exact, take_append_exact, take_append_exact]

lemma headNameOK_prop (s : Str) (h : headNameOK s = true) :
    match s.head? with
    | some c => isWS c = false ∧ c ≠ '#' | none => True := by
  cases hh : s.head? with
  | none => trivial
  | some c =>
    rw [headNameOK, hh] at h
    simp only [Bool.and_eq_true, Bool.not_eq_true'] at h
    refine ⟨h.1, ?_⟩
    intro hc
    rw [hc] at h
    simp at h

lemma lastNotWS_prop (s : Str) (h : lastNotWS s = true) :
    match s.getLast? with
    | some c => isWS c = false | none => True := by
  cases hh : s.getLast? with
  | none => trivial
  | some c =>
    rw [lastNotWS, hh] at h
    simp only [Bool.not_eq_true'] at h
    exact h

/-- Round trip of a single well-formed record through a ban-file line. -/
lemma render_roundtrip (fmt : MCTime → Str) (parse : Str → Nat)
    (r : BannedPlayerInfo) (h : recordOK fmt parse r) :
    parse_banned_line parse (render_banned_line fmt r) = some r := by
  obtain ⟨nm, rs, bt, ub, pm⟩ := r
  simp only [recordOK, fieldOK] at h
  obtain ⟨hnp, hnn, hnh, hrp, hrn, hfb, hbt, hperm, hnonperm⟩ := h
  obtain ⟨hbne, hbp, hbn, hbl⟩ := hfb
  cases pm with
  | true =>
    have hun : ub = MCTime.never := hperm rfl
    subst hun
    have hrender : render_banned_line fmt ⟨nm, rs, bt, MCTime.never, true⟩
        = nm ++ '|' :: (rs ++ '|' ::
            (fmt bt ++ '|' :: sentinelStr)) := by
      simp [render_banned_line, time_to_string]
    rw [hrender]
    rw [parse_banned_line_eq parse nm rs (fmt bt) sentinelStr hnp hrp hbp
      (headNameOK_prop nm hnh) (by decide)
      (lastNotWS_prop sentinelStr (by decide))]
    have h2 : string_to_time parse sentinelStr = MCTime.never := by
      simp [string_to_time]
    have h3 : decide (sentinelStr = sentinelStr) = true := by decide
    simp [h2, h3, hbt]
  | false =>
    obtain ⟨⟨hune, hup, hunn, hul⟩, hst, hnev⟩ := hnonperm rfl
    have hne_sent : fmt ub ≠ sentinelStr := by
      intro he
      have : MCTime.never = ub := by
        rw [← hst, string_to_time, if_pos he]
      exact hnev this.symm
    have hrender : render_banned_line fmt ⟨nm, rs, bt, ub, false⟩
        = nm ++ '|' :: (rs ++ '|' ::
            (fmt bt ++ '|' :: fmt ub)) := by
      simp [render_banned_line, time_to_string]
    rw [hrender]
    rw [parse_banned_line_eq parse nm rs (fmt bt) (fmt ub) hnp hrp hbp
      (headNameOK_prop nm hnh) hune (lastNotWS_prop _ hul)]
    have hdec : decide (fmt ub = sentinelStr) = false := by
      simp [hne_sent]
    simp [hdec, hbt, hst]

lemma mapSet_of_find_none {β : Type} (m : List (Str × β)) (k : Str) (v : β)
    (h : mapFind m k = none) : mapSet m k v = m ++ [(k, v)] := by
  induction m with
  | nil => rfl
  | cons p rest ih =>
    obtain ⟨k2, w⟩ := p
    by_cases hk : k2 = k
    · rw [mapFind, if_pos hk] at h
      exact absurd h (by simp)
    · rw [mapFind, if_neg hk] at h
      rw [mapSet, if_neg hk, ih h]
      rfl

lemma mapFind_append_single_ne {β : Type} (m : List (Str × β))
    (k key : Str) (v : β) (h : mapFind m key = none) (hk : ¬ k = key) :
    mapFind (m ++ [(k, v)]) key = none := by
  induction m with
  | nil => simp [mapFind, hk]
  | cons p rest ih =>
    obtain ⟨k2, w⟩ := p
    by_cases hk2 : k2 = key
    · rw [mapFind, if_pos hk2] at h
      exact absurd h (by simp)
    · rw [mapFind, if_neg hk2] at h
      rw [List.cons_append, mapFind, if_neg hk2]
      exact ih h

lemma load_banned_go (fmt : MCTime → Str) (parse : Str → Nat) :
    ∀ (l : List (Str × BannedPlayerInfo))
      (acc : List (Str × BannedPlayerInfo)),
      (∀ p ∈ l, p.1 = p.2.name) →
      (∀ p ∈ l, recordOK fmt parse p.2) →
      (∀ p ∈ l, mapFind acc p.2.name = none) →
      ((l.map (fun p => p.2.name)).Nodup) →
      List.foldl (fun acc line =>
          match parse_banned_line parse line with
          | none => acc
          | some info => mapSet acc info.name info)
        acc (l.map (fun p => render_banned_line fmt p.2))
      = acc ++ l := by
  intro l
  induction l with
  | nil => intro acc _ _ _ _; simp
  | cons p rest ih =>
    intro acc hk hr hf hnd
    obtain ⟨k, r⟩ := p
    have hk1 : k = r.name := hk (k, r) (by simp)
    subst hk1
    simp only [List.map_cons, List.foldl_cons]
    rw [show (match parse_banned_line parse (render_banned_line fmt r) with
        | none => acc
        | some info => mapSet acc info.name info)
        = mapSet acc r.name r from by
      rw [render_roundtrip fmt parse r (hr (r.name, r) (by simp))]]
    rw [mapSet_of_find_none acc r.name r (hf (r.name, r) (by simp))]
    have hnotin : r.name ∉ rest.map (fun p => p.2.name) := by
      have := hnd
      simp only [List.map_cons, List.nodup_cons] at this
      exact this.1
    rw [ih (acc ++ [(r.name, r)])
      (fun q hq => hk q (by simp [hq]))
      (fun q hq => hr q (by simp [hq]))
      (fun q hq => by
        refine mapFind_append_single_ne acc r.name q.2.name r
          (hf q (by simp [hq])) ?_
        intro he
        exact hnotin (he ▸ List.mem_map_of_mem (fun p => p.2.name) hq))
      (by
        have := hnd
        simp only [List.map_cons, List.nodup_cons] at this
        exact this.2)]
    simp

/-- C5 (amended): saving the banned file and reloading it restores the
registry exactly — same list of name-keyed records, the permanent sentinel
written as `0000-00-00 00:00:00` and restored as `time_point::max()` —
provided every record is file-representable: names and reasons free of the
'|' separator and of newlines, names not starting with trimmed whitespace
or '#', distinct names, the C-library time rendering splittable and
inverted by the C-library parser, and the permanence flag consistent with
the sentinel unban time.  (The counterexample above shows the claim fails
without these provisos.) -/
theorem banned_save_load_roundtrip (fmt : MCTime → Str) (parse : Str → Nat)
    (banned : List (Str × BannedPlayerInfo))
    (hkeys : ∀ p ∈ banned, p.1 = p.2.name)
    (hnodup : (banned.map (fun p => p.2.name)).Nodup)
    (hrec : ∀ p ∈ banned, recordOK fmt parse p.2) :
    load_banned parse (save_banned fmt banned) = banned := by
  have hheader : parse_banned_line parse
      ("# name|reason|ban_time|unban_time".toList) = none := by rfl
  rw [load_banned, save_banned, List.foldl_cons]
  rw [show (match parse_banned_line parse
        ("# name|reason|ban_time|unban_time".toList) with
      | none => ([] : List (Str × BannedPlayerInfo))
      | some info => mapSet [] info.name info)
      = [] from by rw [hheader]]
  rw [load_banned_go fmt parse banned [] hkeys hrec
    (fun p _ => rfl) hnodup]
  simp

/-- C5 witness: the amended round-trip theorem applied, with the concrete
decimal time rendering, to a registry holding one permanent and one timed
ban. -/
theorem banned_save_load_roundtrip_witness :
    load_banned parseD (save_banned fmtD
        [(['p'], ⟨['p'], ['o', 'k'], MCTime.fin 5, MCTime.never, true⟩),
         (['q'], ⟨['q'], ['r', '2'], MCTime.fin 3, MCTime.fin 7, false⟩)])
      = [(['p'], ⟨['p'], ['o', 'k'], MCTime.fin 5, MCTime.never, true⟩),
         (['q'], ⟨['q'], ['r', '2'], MCTime.fin 3, MCTime.fin 7, false⟩)] := by
  refine banned_save_load_roundtrip fmtD parseD
      [(['p'], ⟨['p'], ['o', 'k'], MCTime.fin 5, MCTime.never, true⟩),
       (['q'], ⟨['q'], ['r', '2'], MCTime.fin 3, MCTime.fin 7, false⟩)]
      ?_ ?_ ?_
  all_goals decide

/-!  ## Log classification and moderation (PlayerList::process_log_line)

The classifier is embedded as a pure function from the state and one log
line to the typed event and the new state.  The wall-clock timestamp
attached to events (`parse_log_time`) is referenced by no claim and is
omitted from the event record; `now` stands for
`std::chrono::system_clock::now()` inside the forbidden-rule escalation.
`remove_ansi` is a `while` loop over an index that can jump by more than
one position, so it is embedded with an explicit step budget: every
iteration consumes at least one character, so a budget of `s.length` makes
the recursion structural without changing the computed value. -/

/-- Parameter bytes of an ANSI control sequence: digits and ';'. -/
def isAnsiParam (c : Char) : Bool :=
  ('0' ≤ c ∧ c ≤ '9') || c = ';'

/-- The terminator test of `remove_ansi`: an ASCII letter. -/
def isAsciiLetter (c : Char) : Bool :=
  ('A' ≤ c ∧ c ≤ 'Z') || ('a' ≤ c ∧ c ≤ 'z')

/-- The loop body of `remove_ansi` (player_list.cpp): drop `ESC [ params
letter` runs, drop a lone ESC, drop `[digits(;digits)* m]` runs whose
escape byte was already filtered upstream, and keep everything else. -/
def remove_ansi_go : Nat → Str → Str
  | 0, _ => []
  | _, [] => []
  | fuel + 1, c :: rest =>
    if c = '\x1b' then
      match rest with
      | '[' :: rest2 =>
        match rest2.dropWhile isAnsiParam with
        | d :: rest3 =>
          if isAsciiLetter d then remove_ansi_go fuel rest3
          else remove_ansi_go fuel (d :: rest3)
        | [] => []
      | _ => remove_ansi_go fuel rest
    else if c = '[' then
      match rest with
      | d :: _ =>
        if ('0' ≤ d ∧ d ≤ '9') then
          match rest.dropWhile isAnsiParam with
          | 'm' :: rest3 => remove_ansi_go fuel rest3
          | _ => c :: remove_ansi_go fuel rest
        else c :: remove_ansi_go fuel rest
      | [] => [c]
    else c :: remove_ansi_go fuel rest

/-- `remove_ansi`: strip terminal control sequences from one log line. -/
def remove_ansi (s : Str) : Str :=
  remove_ansi_go s.length s

/-- `std::string` `operator<`: lexicographic byte order, used for the
iteration order of the `std::set` of known players. -/
def strLt : Str → Str → Bool
  | [], [] => false
  | [], _ :: _ => true
  | _ :: _, [] => false
  | a :: as, b :: bs =>
    if a < b then true else if b < a then false else strLt as bs

/-- `std::set<std::string>::insert`: ordered, duplicate-free insertion. -/
def insertSorted (x : Str) : List Str → List Str
  | [] => [x]
  | y :: ys =>
    if strLt x y then x :: y :: ys
    else if x = y then y :: ys
    else y :: insertSorted x ys

/-- `std::map::erase` by key. -/
def mapErase {β : Type} : List (Str × β) → Str → List (Str × β)
  | [], _ => []
  | (k, v) :: rest, key =>
    if k = key then rest else (k, v) :: mapErase rest key

/-- The known-player scan of the bracket-operation branch: the player of
`all_players_` (in set iteration order) whose first occurrence in the
content is strictly earliest; empty when none occurs. -/
def find_earliest_player (content : Str) (players : List Str) : Str :=
  (players.foldl (fun acc player =>
    match strStr content player with
    | some p =>
      match acc.2 with
      | none => (player, some p)
      | some e => if p < e then (player, some p) else acc
    | none => acc) (([] : Str), (none : Option Nat))).1

/-- The forbidden-rule loop of the issued-server-command branch: ban on
the first rule whose stripped, case-folded key occurs in the match string
and stop. -/
def scan_forbidden (match_str : Str) : List ForbiddenRule →
    Option ForbiddenRule
  | [] => none
  | fc :: rest =>
    if (strStr match_str (to_lower (remove_spaces fc.command))).isSome
    then some fc
    else scan_forbidden match_str rest

/-- The forbidden-rule loop of the bracket-operation branch: identical
except that the ban (and hence the early exit) additionally requires a
non-empty found player. -/
def scan_forbidden_named (match_str found_player : Str) :
    List ForbiddenRule → Option ForbiddenRule
  | [] => none
  | fc :: rest =>
    if (strStr match_str (to_lower (remove_spaces fc.command))).isSome
        ∧ found_player ≠ []
    then some fc
    else scan_forbidden_named match_str found_player rest

/-- The composed ban reason of the issued-server-command branch. -/
def commandReason (fmt : MCTime → Str) (now : Nat) (econtent : Str)
    (fc : ForbiddenRule) : Str :=
  "执行被禁止的指令: /".toList ++ econtent ++ ", 将被".toList ++
  (if fc.ban_hours ≠ 0
   then "封禁至".toList
     ++ time_to_string fmt (MCTime.fin (now + fc.ban_hours * 3600)) false
     ++ "。".toList
   else "永久封禁。".toList) ++
  "有异议请在服务器管理网站提出解封申请。".toList

/-- The composed ban reason of the bracket-operation branch. -/
def bracketReason (fmt : MCTime → Str) (now : Nat) (econtent : Str)
    (fc : ForbiddenRule) : Str :=
  "执行被禁止的操作: [".toList ++ econtent ++ "], 将被".toList ++
  (if fc.ban_hours ≠ 0
   then "封禁至".toList
     ++ time_to_string fmt (MCTime.fin (now + fc.ban_hours * 3600)) false
     ++ "。".toList
   else "永久封禁。".toList) ++
  "有异议请在服务器管理网站提出解封申请。".toList

/-- `dl::LogEventType` (player_list.h). -/
inductive LogEventType where
  | NONE
  | PLAYER_JOIN
  | PLAYER_LEAVE
  | PLAYER_COMMAND
  | PLAYER_CHAT
deriving Repr, DecidableEq

/-- One classified log event.  The advisory wall-clock timestamp, set from
`parse_log_time`, is claimed by nothing and omitted. -/
structure LogEvent where
  type : LogEventType
  player_name : Str
  content : Str
  client_info : Str
deriving Repr, DecidableEq

/-- The chat branch and the fall-through default of `process_log_line`. -/
def chat_or_none (content : Str) (st : PlayerListState) :
    LogEvent × PlayerListState :=
  if content.head? = some '<' then
    match strFind content '>' 0 with
    | some e =>
      (⟨LogEventType.PLAYER_CHAT, (content.drop 1).take (e - 1),
        dropTrailingNL (trim (content.drop (e + 1))), []⟩, st)
    | none => (⟨LogEventType.NONE, [], [], []⟩, st)
  else (⟨LogEventType.NONE, [], [], []⟩, st)

/-- The bracket-operation branch of `process_log_line`, falling through to
the chat branch when the bracket shape is not met. -/
def bracket_branch (fmt : MCTime → Str) (now : Nat) (content : Str)
    (st : PlayerListState) : LogEvent × PlayerListState :=
  if content.head? = some '[' then
    match strFind content ']' 0, strFind content ':' 0 with
    | some end_bracket, some colon_pos =>
      if colon_pos < end_bracket then
        let bracket_content := (content.drop 1).take (end_bracket - 1)
        let match_str := to_lower (remove_spaces bracket_content)
        let found_player := find_earliest_player content st.all_players
        let econtent := dropTrailingNL bracket_content
        let st2 :=
          match scan_forbidden_named match_str found_player
              st.forbidden_commands with
          | some fc => PlayerList.ban now st found_player
              (bracketReason fmt now econtent fc) fc.ban_hours
          | none => st
        (⟨LogEventType.PLAYER_COMMAND, found_player,
          '[' :: (econtent ++ [']']), []⟩, st2)
      else chat_or_none content st
    | _, _ => chat_or_none content st
  else chat_or_none content st

/-- `PlayerList::process_log_line`: strip ANSI sequences, locate the
`"]: "` content marker, then match the join / leave / issued-command /
bracket-operation / chat patterns in source order, updating the player
sets and escalating forbidden actions to `ban`. -/
def process_log_line (fmt : MCTime → Str) (now : Nat)
    (st : PlayerListState) (log_line : Str) :
    LogEvent × PlayerListState :=
  let clean := remove_ansi log_line
  match strStr clean ("]: ".toList) with
  | none => (⟨LogEventType.NONE, [], [], []⟩, st)
  | some cs =>
    let content := clean.drop (cs + 3)
    let step1 : Option (LogEvent × PlayerListState) :=
      match strStr content (" joined with ".toList) with
      | some pos =>
        match rfindSub content ("Player ".toList) pos with
        | some player_pos =>
          let name_start := player_pos + 7
          let pname := trim ((content.drop name_start).take (pos - name_start))
          let cinfo := dropTrailingNL (trim (content.drop (pos + 13)))
          some (⟨LogEventType.PLAYER_JOIN, pname, [], cinfo⟩,
            { st with all_players := insertSorted pname st.all_players
                      online_players := mapSet st.online_players pname cinfo })
        | none => none
      | none => none
    match step1 with
    | some r => r
    | none =>
      match strStr content (" joined the game".toList) with
      | some pos =>
        let pname := trim (content.take pos)
        (⟨LogEventType.PLAYER_JOIN, pname, [], "vanilla".toList⟩,
          { st with all_players := insertSorted pname st.all_players
                    online_players :=
                      mapSet st.online_players pname ("vanilla".toList) })
      | none =>
        match strStr content (" left the game".toList) with
        | some pos =>
          let pname := trim (content.take pos)
          (⟨LogEventType.PLAYER_LEAVE, pname, [], []⟩,
            { st with online_players := mapErase st.online_players pname })
        | none =>
          match strStr content (" issued server command: /".toList) with
          | some pos =>
            let pname := trim (content.take pos)
            let econtent := dropTrailingNL (content.drop (pos + 25))
            let match_str := to_lower (remove_spaces content)
            let st2 :=
              match scan_forbidden match_str st.forbidden_commands with
              | some fc => PlayerList.ban now st pname
                  (commandReason fmt now econtent fc) fc.ban_hours
              | none => st
            (⟨LogEventType.PLAYER_COMMAND, pname, '/' :: econtent, []⟩, st2)
          | none => bracket_branch fmt now content st

/-- C4 counterexample: on the log line
"[12:00:00] [x]:  issued server command: /stop\n" (an issued-command line
whose player prefix is empty) with the forbidden rule ("stop", 24) loaded,
the engine classifies a Command event with an empty player name and still
invokes `ban` — with the empty string as the player — although no player
name is known.  The claim's "only when … a player name is known" is false
for the issued-server-command branch. -/
theorem moderation_bans_without_known_player :
    ((process_log_line fmtD 0
        ⟨[], [], [], [⟨"stop".toList, 24⟩], [], []⟩
        ("[12:00:00] [x]:  issued server command: /stop\n".toList)).1.type
      = LogEventType.PLAYER_COMMAND) ∧
    ((process_log_line fmtD 0
        ⟨[], [], [], [⟨"stop".toList, 24⟩], [], []⟩
        ("[12:00:00] [x]:  issued server command: /stop\n".toList)).1.player_name
      = []) ∧
    ((process_log_line fmtD 0
        ⟨[], [], [], [⟨"stop".toList, 24⟩], [], []⟩
        ("[12:00:00] [x]:  issued server command: /stop\n".toList)).2.ban_calls.map
        (fun b => (b.1, b.2.2))
      = [([], 24)]) := by
  decide

lemma scan_forbidden_eq_find (m : Str) :
    ∀ rules, scan_forbidden m rules
      = rules.find? (fun fc =>
          (strStr m (to_lower (remove_spaces fc.command))).isSome) := by
  intro rules
  induction rules with
  | nil => rfl
  | cons fc rest ih =>
    by_cases h : (strStr m (to_lower (remove_spaces fc.command))).isSome
    · simp [scan_forbidden, h, List.find?_cons, ih]
    · simp [scan_forbidden, h, List.find?_cons, ih]

lemma scan_forbidden_named_eq (m fp : Str) :
    ∀ rules, scan_forbidden_named m fp rules
      = if fp = [] then none
        else rules.find? (fun fc =>
          (strStr m (to_lower (remove_spaces fc.command))).isSome) := by
  intro rules
  induction rules with
  | nil => simp [scan_forbidden_named]
  | cons fc rest ih =>
    by_cases hfp : fp = []
    · subst hfp
      simp [scan_forbidden_named, ih]
    · by_cases h : (strStr m (to_lower (remove_spaces fc.command))).isSome
      · simp [scan_forbidden_named, h, hfp, List.find?_cons, ih]
      · simp [scan_forbidden_named, h, hfp, List.find?_cons, ih]

/-- C4 (amended): for a classified Command event the engine case-folds and
whitespace-strips the candidate text and scans the forbidden rules in load
order, banning on the first rule whose stripped, case-folded key occurs in
the match string (`find?` = first rule wins, proved for both rule loops);
in the issued-server-command branch `ban(player, composedReason, banHours)`
is invoked whenever a rule matches — with no requirement that a player
name is known — while only in the bracket-operation branch the ban
additionally requires a non-empty found player. -/
theorem moderation_command_spec :
    (∀ (m : Str) (rules : List ForbiddenRule), scan_forbidden m rules
      = rules.find? (fun fc =>
          (strStr m (to_lower (remove_spaces fc.command))).isSome)) ∧
    (∀ (m fp : Str) (rules : List ForbiddenRule),
      scan_forbidden_named m fp rules
        = if fp = [] then none
          else rules.find? (fun fc =>
            (strStr m (to_lower (remove_spaces fc.command))).isSome)) ∧
    (∀ (fmt : MCTime → Str) (now : Nat) (st : PlayerListState)
        (line : Str) (cs pos : Nat),
      strStr (remove_ansi line) ("]: ".toList) = some cs →
      strStr ((remove_ansi line).drop (cs + 3)) (" joined with ".toList)
          = none →
      strStr ((remove_ansi line).drop (cs + 3)) (" joined the game".toList)
          = none →
      strStr ((remove_ansi line).drop (cs + 3)) (" left the game".toList)
          = none →
      strStr ((remove_ansi line).drop (cs + 3))
          (" issued server command: /".toList) = some pos →
      (process_log_line fmt now st line).1.type
          = LogEventType.PLAYER_COMMAND ∧
      (process_log_line fmt now st line).1.player_name
          = trim (((remove_ansi line).drop (cs + 3)).take pos) ∧
      (process_log_line fmt now st line).2.ban_calls
          = st.ban_calls ++
            (match scan_forbidden
                (to_lower (remove_spaces ((remove_ansi line).drop (cs + 3))))
                st.forbidden_commands with
             | some fc =>
                [(trim (((remove_ansi line).drop (cs + 3)).take pos),
                  commandReason fmt now
                    (dropTrailingNL
                      (((remove_ansi line).drop (cs + 3)).drop (pos + 25))) fc,
                  fc.ban_hours)]
             | none => [])) ∧
    (∀ (fmt : MCTime → Str) (now : Nat) (st : PlayerListState)
        (line : Str) (cs eb co : Nat),
      strStr (remove_ansi line) ("]: ".toList) = some cs →
      strStr ((remove_ansi line).drop (cs + 3)) (" joined with ".toList)
          = none →
      strStr ((remove_ansi line).drop (cs + 3)) (" joined the game".toList)
          = none →
      strStr ((remove_ansi line).drop (cs + 3)) (" left the game".toList)
          = none →
      strStr ((remove_ansi line).drop (cs + 3))
          (" issued server command: /".toList) = none →
      ((remove_ansi line).drop (cs + 3)).head? = some '[' →
      strFind ((remove_ansi line).drop (cs + 3)) ']' 0 = some eb →
      strFind ((remove_ansi line).drop (cs + 3)) ':' 0 = some co →
      co < eb →
      (process_log_line fmt now st line).1.type
          = LogEventType.PLAYER_COMMAND ∧
      (process_log_line fmt now st line).1.player_name
          = find_earliest_player ((remove_ansi line).drop (cs + 3))
              st.all_players ∧
      (process_log_line fmt now st line).2.ban_calls
          = st.ban_calls ++
            (match scan_forbidden_named
                (to_lower (remove_spaces
                  ((((remove_ansi line).drop (cs + 3)).drop 1).take (eb - 1))))
                (find_earliest_player ((remove_ansi line).drop (cs + 3))
                  st.all_players)
                st.forbidden_commands with
             | some fc =>
                [(find_earliest_player ((remove_ansi line).drop (cs + 3))
                    st.all_players,
                  bracketReason fmt now
                    (dropTrailingNL
                      ((((remove_ansi line).drop (cs + 3)).drop 1).take (eb - 1)))
                    fc,
                  fc.ban_hours)]
             | none => [])) := by
  refine ⟨scan_forbidden_eq_find, scan_forbidden_named_eq, ?_, ?_⟩
  · intro fmt now st line cs pos hcs hjw hjg hlg hic
    simp only [process_log_line, hcs, hjw, hjg, hlg, hic]
    rcases hscan : scan_forbidden
        (to_lower (remove_spaces ((remove_ansi line).drop (cs + 3))))
        st.forbidden_commands with _ | fc
    · simp [hscan]
    · simp [hscan, PlayerList.ban]
  · intro fmt now st line cs eb co hcs hjw hjg hlg hic hbr heb hco hlt
    simp only [process_log_line, hcs, hjw, hjg, hlg, hic]
    simp only [bracket_branch, hbr, heb, hco, if_pos hlt]
    rcases hscan : scan_forbidden_named
        (to_lower (remove_spaces
          ((((remove_ansi line).drop (cs + 3)).drop 1).take (eb - 1))))
        (find_earliest_player ((remove_ansi line).drop (cs + 3))
          st.all_players)
        st.forbidden_commands with _ | fc
    · simp [hscan]
    · simp [hscan, PlayerList.ban]

/-- C4 witness: the amended theorem applied to a concrete issued-command
line from "Alice" with a matching permanent rule, and to a concrete
bracket-operation line naming a known player with a matching 24-hour
rule. -/
theorem moderation_command_spec_witness :
    ((process_log_line fmtD 3
        ⟨[], [], [], [⟨"stop".toList, 0⟩], [], []⟩
        ("[1] [a]: Alice issued server command: /stop\n".toList)).1.type
      = LogEventType.PLAYER_COMMAND ∧
    (process_log_line fmtD 3
        ⟨[], [], [], [⟨"stop".toList, 0⟩], [], []⟩
        ("[1] [a]: Alice issued server command: /stop\n".toList)).1.player_name
      = "Alice".toList ∧
    (process_log_line fmtD 3
        ⟨[], [], [], [⟨"stop".toList, 0⟩], [], []⟩
        ("[1] [a]: Alice issued server command: /stop\n".toList)).2.ban_calls
      = [("Alice".toList,
          commandReason fmtD 3 ("stop".toList) ⟨"stop".toList, 0⟩, 0)]) ∧
    ((process_log_line fmtD 3
        ⟨["Alice".toList], [], [], [⟨"op".toList, 24⟩], [], []⟩
        ("[1] [a]: [Alice: op]\n".toList)).1.player_name
      = "Alice".toList ∧
    (process_log_line fmtD 3
        ⟨["Alice".toList], [], [], [⟨"op".toList, 24⟩], [], []⟩
        ("[1] [a]: [Alice: op]\n".toList)).2.ban_calls
      = [("Alice".toList,
          bracketReason fmtD 3 ("Alice: op".toList) ⟨"op".toList, 24⟩,
          24)]) := by
  constructor
  · exact moderation_command_spec.2.2.1 fmtD 3
      ⟨[], [], [], [⟨"stop".toList, 0⟩], [], []⟩
      ("[1] [a]: Alice issued server command: /stop\n".toList) 6 5
      (by decide) (by decide) (by decide) (by decide) (by decide)
  · exact ⟨(moderation_command_spec.2.2.2 fmtD 3
      ⟨["Alice".toList], [], [], [⟨"op".toList, 24⟩], [], []⟩
      ("[1] [a]: [Alice: op]\n".toList) 6 10 6
      (by decide) (by decide) (by decide) (by decide) (by decide)
      (by decide) (by decide) (by decide) (by decide)).2.1,
    (moderation_command_spec.2.2.2 fmtD 3
      ⟨["Alice".toList], [], [], [⟨"op".toList, 24⟩], [], []⟩
      ("[1] [a]: [Alice: op]\n".toList) 6 10 6
      (by decide) (by decide) (by decide) (by decide) (by decide)
      (by decide) (by decide) (by decide) (by decide)).2.2⟩

end DL
